import Mathlib

/-!
Verification of the cabotool matching engine.

The development shallowly embeds the two source files:
  - cabocha_parser.py : the Token / Chunk / Sentence data model,
    the Token constructor and Token equality;
  - cabocha_matcher.py : the intra-chunk matcher (match_token /
    _match_chunk), the inter-chunk matcher (match_tok), the
    same-node correspondence check (_same_node) and the result
    conversion (match / _tolist).

Python dictionaries are modelled as association lists with
insertion-order preserving update, matching CPython semantics.
The recursive intra-chunk matcher is embedded with an explicit
fuel parameter so that every definition is executable; a fuel
congruence lemma shows the result is independent of the fuel as
soon as the fuel exceeds the recursion measure, which the chosen
fuel always does.
-/

set_option maxHeartbeats 1000000

/-- The three modes of the intra-chunk matcher recursion
(INITIAL, RECORDING, NORMAL = 0, 1, 2 in the source). -/
inductive Mode where
  | INITIAL : Mode
  | RECORDING : Mode
  | NORMAL : Mode
deriving DecidableEq, Repr

/-- A morphological token: token id, surface string, the 9-slot
feature vector (slots hold none where the source stores None),
and the extraction-slot flag.  The slot flag must be stored
because the trailing marker is stripped from the part-of-speech
during construction.  The head, func and score chunk header
fields of the source are not part of Token. -/
structure Token where
  tid : Nat
  surface : String
  feature : List (Option String)
  is_slot : Bool
deriving DecidableEq, Repr

/-- A junk token used only as the default of guarded list lookups
(the source indexes lists only under bounds established by the
surrounding checks). -/
def dtok : Token := ⟨0, "", List.replicate 9 none, false⟩

/-- empty_to_None from Token.__init__: the literal "*" denotes an
unspecified feature slot and becomes none. -/
def emptyToNone (x : String) : Option String :=
  if x = "*" then none else some x

/-- The while-loop of Token.__init__ that right-pads a short raw
feature list with "*" up to 9 fields. -/
def padFeature (raw : List String) : List String :=
  raw ++ List.replicate (9 - raw.length) "*"

/-- Token.__init__ of cabocha_parser.py, after the tab split: it
receives the token id, the surface, and the comma-split raw
feature list.  It returns none exactly when the constructor
raises: the explicit Exception when the padded feature list does
not have 9 fields, and the implicit TypeError / IndexError when
feature[0] is None (raw field "*") or the empty string, raised by
the trailing-marker test feature[0][-1]. -/
def Token.make (tid : Nat) (surface : String) (raw : List String) : Option Token :=
  if (padFeature raw).length = 9 then
    match (padFeature raw).map emptyToNone with
    | none :: _ => none
    | some p :: rest =>
      if p = "" then none
      else if p.data.getLast? = some (Char.ofNat 42) then
        some ⟨tid, surface, some (String.mk p.data.dropLast) :: rest, true⟩
      else
        some ⟨tid, surface, some p :: rest, false⟩
    | [] => none
  else none

/-- is_wild: the surface is empty.  Derived, as in the source. -/
def Token.is_wild (t : Token) : Bool :=
  t.surface == ""

/-- pos: feature[0]. -/
def Token.pos (t : Token) : Option String :=
  t.feature.headD none

/-- detailed_pos: feature[1:4]. -/
def Token.detailed_pos (t : Token) : List (Option String) :=
  (t.feature.drop 1).take 3

/-- dictform: feature[6] if it is truthy (present and non-empty),
otherwise the surface. -/
def Token.dictform (t : Token) : String :=
  match t.feature.getD 6 none with
  | some s => if s = "" then t.surface else s
  | none => t.surface

/-- Token.__eq__ of cabocha_parser.py: dictionary forms must agree
unless either token is a wildcard; parts of speech must agree;
each of the three detailed part-of-speech slots must agree unless
either side is unspecified. -/
def Token.beq (a b : Token) : Bool :=
  if (!a.is_wild && !b.is_wild) && !(a.dictform == b.dictform) then false
  else if !(a.pos == b.pos) then false
  else (a.detailed_pos.zip b.detailed_pos).all fun sp =>
    sp.1.isNone || sp.2.isNone || (sp.1 == sp.2)

/-- A chunk: chunk id, dependency link (-1 marks the root) and the
token sequence. -/
structure Chunk where
  cid : Int
  link : Int
  toks : List Token
deriving DecidableEq, Repr

/-- is_root: the link is the -1 sentinel. -/
def Chunk.is_root (c : Chunk) : Bool :=
  c.link == -1

/-- A sentence: its chunk list. -/
structure Sentence where
  cnks : List Chunk
deriving DecidableEq, Repr

/-- The flattened token view of a sentence. -/
def Sentence.toks (s : Sentence) : List Token :=
  s.cnks.flatMap Chunk.toks

/-- get_cnk: the first chunk carrying the given id, if any
(the source returns None implicitly when the id is absent). -/
def Sentence.get_cnk (s : Sentence) (cid : Int) : Option Chunk :=
  s.cnks.find? fun c => c.cid == cid

/-- The link of the chunk with the given id.  The source
expression sentence.get_cnk(cid).link is only evaluated on ids
known to occur in the sentence; the -2 default is unreachable
there and is never equal to the -1 root sentinel. -/
def Sentence.linkOf (s : Sentence) (cid : Int) : Int :=
  ((s.get_cnk cid).map Chunk.link).getD (-2)

/-- A capture mapping, dict[int, list[Token]] in the source: wild
token id to the captured token list, in insertion order. -/
abbrev Caps := List (Nat × List Token)

/-- Python dict lookup d[k] (None on a missing key), generic over
the key type. -/
def dictFind {α β : Type} [DecidableEq α] : List (α × β) → α → Option β
  | [], _ => none
  | (k, v) :: rest, a => if k = a then some v else dictFind rest a

/-- Python dict assignment d[k] = v: replaces the value in place
when the key exists, otherwise appends the new key, preserving
CPython insertion order. -/
def dictSet {α β : Type} [DecidableEq α] : List (α × β) → α → β → List (α × β)
  | [], a, v => [(a, v)]
  | (k, w) :: rest, a, v =>
    if k = a then (k, v) :: rest else (k, w) :: dictSet rest a v

/-- The capture accumulation res[tid] = [stok] + res.setdefault(tid, [])
of match_token: prepend the token to the list at the key,
installing [stok] at the end of the dict when the key is new. -/
def dictPrepend : Caps → Nat → Token → Caps
  | [], a, t => [(a, [t])]
  | (k, l) :: rest, a, t =>
    if k = a then (k, t :: l) :: rest else (k, l) :: dictPrepend rest a t

/-- Python dict.update: fold the assignments of the second dict
into the first, left to right. -/
def dictUpd (d other : Caps) : Caps :=
  other.foldl (fun acc kv => dictSet acc kv.1 kv.2) d

/-- Insert one keyed entry into a list sorted by key. -/
def insertByKey (x : Nat × List Token) : Caps → Caps
  | [] => [x]
  | y :: ys => if x.1 ≤ y.1 then x :: y :: ys else y :: insertByKey x ys

/-- sorted(dic.items()) on a capture dict: keys are distinct, so
sorting by key agrees with the source tuple sort. -/
def sortByKey (l : Caps) : Caps :=
  l.foldr insertByKey []

/-- The recursion of match_token inside _match_chunk, with an
explicit fuel parameter.  Each recursive call strictly decreases
(S - si) + (P - pi), so any fuel above that measure yields the
value of the source recursion (matchTokenF_congr below).  Zero
fuel is unreachable from matchToken.  The branches mirror the
source: pattern exhausted succeeds except in NORMAL mode;
sentence exhausted fails; a slot token that equals the sentence
token first extends the capture (sentence index only), then
closes it (both indices), and fails if both fail; a slot token
that differs closes an open capture in RECORDING mode and fails
otherwise; a literal token must be equal and consumes one to
one. -/
def matchTokenF (stoks ptoks : List Token) : Nat → Nat → Nat → Mode → Option Caps
  | 0, _, _, _ => none
  | fuel + 1, si, pi, mode =>
    if pi ≥ ptoks.length then
      match mode with
      | Mode.INITIAL => some []
      | Mode.RECORDING => some []
      | Mode.NORMAL => none
    else if si ≥ stoks.length then none
    else
      if (ptoks.getD pi dtok).is_slot && Token.beq (stoks.getD si dtok) (ptoks.getD pi dtok) then
        match matchTokenF stoks ptoks fuel (si + 1) pi Mode.RECORDING with
        | some res => some (dictPrepend res (ptoks.getD pi dtok).tid (stoks.getD si dtok))
        | none =>
          match matchTokenF stoks ptoks fuel (si + 1) (pi + 1) Mode.RECORDING with
          | some res => some (dictPrepend res (ptoks.getD pi dtok).tid (stoks.getD si dtok))
          | none => none
      else if (ptoks.getD pi dtok).is_slot && !Token.beq (stoks.getD si dtok) (ptoks.getD pi dtok) then
        match mode with
        | Mode.INITIAL => none
        | Mode.RECORDING => matchTokenF stoks ptoks fuel si (pi + 1) Mode.NORMAL
        | Mode.NORMAL => none
      else if !(ptoks.getD pi dtok).is_slot && Token.beq (stoks.getD si dtok) (ptoks.getD pi dtok) then
        matchTokenF stoks ptoks fuel (si + 1) (pi + 1) mode
      else none

/-- match_token at the given indices and mode: the fuel
S + P + 1 strictly exceeds the recursion measure from any
starting indices. -/
def matchToken (stoks ptoks : List Token) (si pi : Nat) (mode : Mode) : Option Caps :=
  matchTokenF stoks ptoks (stoks.length + ptoks.length + 1) si pi mode

/-- _match_chunk: run the token recursion from the start of both
chunks in INITIAL mode. -/
def matchChunk (scnk pcnk : Chunk) : Option Caps :=
  matchToken scnk.toks pcnk.toks 0 0 Mode.INITIAL

/-- Per-pattern-chunk result, dict[int, dict[int, list[Token]]]
keyed by sentence chunk id. -/
abbrev CnkRes := List (Int × Caps)

/-- The Step 1 accumulator, keyed by pattern chunk id. -/
abbrev MatchRes := List (Int × CnkRes)

/-- One step of the inner loop of Step 1 of match_tok: record the
captures of a matching sentence chunk under its id, skip a
non-matching one. -/
def chunkStep (pcnk : Chunk) (acc : CnkRes) (scnk : Chunk) : CnkRes :=
  match matchChunk scnk pcnk with
  | some r => dictSet acc scnk.cid r
  | none => acc

/-- The inner loop of Step 1 of match_tok: match one pattern
chunk against every sentence chunk, recording the captures of the
matching chunks under their ids. -/
def chunkMatches (sentence : Sentence) (pcnk : Chunk) : CnkRes :=
  sentence.cnks.foldl (chunkStep pcnk) []

/-- One iteration of Step 1 of match_tok: fail when the pattern
chunk matched no sentence chunk, otherwise record the result
dict under the pattern chunk id. -/
def step1f (sentence : Sentence) (acc : MatchRes) (pcnk : Chunk) : Option MatchRes :=
  if (chunkMatches sentence pcnk).isEmpty then none
  else some (dictSet acc pcnk.cid (chunkMatches sentence pcnk))

/-- Step 1 of match_tok: the per-chunk candidate search, failing
as soon as some pattern chunk has no candidates. -/
def step1 (sentence pattern : Sentence) : Option MatchRes :=
  pattern.cnks.foldlM (step1f sentence) []

/-- The valid-edges accumulator of Step 2: pattern edge to the
list of realizing sentence edges. -/
abbrev EdgeRes := List ((Int × Int) × List (Int × Int))

/-- The s_edges computation of Step 2 of match_tok: the sentence
chunks that matched the pattern chunk, kept when their own link
lands among the sentence chunks that matched the link target of
the pattern chunk. -/
def step2edges (sentence : Sentence) (mres : MatchRes) (pdict : CnkRes) (plink : Int) : List (Int × Int) :=
  (pdict.map Prod.fst).filterMap fun scid =>
    if Sentence.linkOf sentence scid ∈ ((dictFind mres plink).getD []).map Prod.fst then
      some (scid, Sentence.linkOf sentence scid)
    else none

/-- One iteration of Step 2 of match_tok: skip root pattern
chunks; otherwise fail when the pattern edge has no realizing
sentence edge, and record the realizations under the pattern
edge. -/
def step2f (sentence pattern : Sentence) (mres : MatchRes) (acc : EdgeRes) (pe : Int × CnkRes) : Option EdgeRes :=
  if Sentence.linkOf pattern pe.1 = -1 then some acc
  else if (step2edges sentence mres pe.2 (Sentence.linkOf pattern pe.1)).isEmpty then none
  else some (dictSet acc (pe.1, Sentence.linkOf pattern pe.1)
    (step2edges sentence mres pe.2 (Sentence.linkOf pattern pe.1)))

/-- Step 2 of match_tok: the dependency-edge consistency check
over all entries of the Step 1 result. -/
def step2 (sentence pattern : Sentence) (mres : MatchRes) : Option EdgeRes :=
  mres.foldlM (step2f sentence pattern mres) []

/-- itertools.product of two lists: all pairs, second component
varying fastest. -/
def listProd {α β : Type} (xs : List α) (ys : List β) : List (α × β) :=
  xs.flatMap fun x => ys.map fun y => (x, y)

/-- _same_node: for every ordered pair of edges, whether the
starts coincide and whether the ends coincide. -/
def sameNode (edges : List (Int × Int)) : List (Bool × Bool) :=
  (listProd edges edges).map fun x => (x.1.1 == x.2.1, x.1.2 == x.2.2)

/-- The reduce flattening of match_tok: the edge endpoints in
order, with repetitions. -/
def flattenEdges (edges : List (Int × Int)) : List Int :=
  edges.flatMap fun e => [e.1, e.2]

/-- itertools.product over a list of lists: all selections, the
first coordinate varying slowest. -/
def cartProd {α : Type} : List (List α) → List (List α)
  | [] => [[]]
  | l :: ls => l.flatMap fun x => (cartProd ls).map fun r => x :: r

/-- Step 3 of match_tok: enumerate the Cartesian product of the
per-edge realization lists, keep combinations whose same-node
table equals that of the pattern edges, and merge the captures of
the chunks forming each accepted combination. -/
def step3 (mres : MatchRes) (vedges : EdgeRes) : List Caps :=
  (cartProd (vedges.map Prod.snd)).foldl
    (fun res sedges =>
      if sameNode (vedges.map Prod.fst) = sameNode sedges then
        res ++ [((flattenEdges (vedges.map Prod.fst)).zip (flattenEdges sedges)).foldl
          (fun toks pcsc =>
            dictUpd toks ((dictFind ((dictFind mres pcsc.1).getD []) pcsc.2).getD []))
          []]
      else res)
    []

/-- match_tok of CaboChaMatcher: Step 1, Step 2, then Step 3 when
the pattern has edges, and otherwise one record per matching
sentence chunk. -/
def matchTok (sentence pattern : Sentence) : Option (List Caps) :=
  match step1 sentence pattern with
  | none => none
  | some mres =>
    match step2 sentence pattern mres with
    | none => none
    | some vedges =>
      if vedges.isEmpty then
        some (mres.flatMap fun pe => pe.2.map Prod.snd)
      else
        some (step3 mres vedges)

/-- match of CaboChaMatcher composed with _tolist: each record
becomes the list of captured token lists in ascending key
order. -/
def matchToList (sentence pattern : Sentence) : Option (List (List (List Token))) :=
  (matchTok sentence pattern).map fun l =>
    l.map fun dic => (sortByKey dic).map Prod.snd

/-- Two successive runs of match_tok on the same inputs, for the
determinism claim. -/
def matchTokTwice (sentence pattern : Sentence) : Option (List Caps) × Option (List Caps) :=
  (matchTok sentence pattern, matchTok sentence pattern)

/-- A literal token with the given id, surface and part of
speech, all other feature slots unspecified. -/
def mkTok (tid : Nat) (s p : String) : Token :=
  ⟨tid, s, some p :: List.replicate 8 none, false⟩

/-- A wildcard extraction-slot token with the given id and part
of speech: empty surface, slot flag set. -/
def mkSlotTok (tid : Nat) (p : String) : Token :=
  ⟨tid, "", some p :: List.replicate 8 none, true⟩

/-- The sentence chunk 青春 ラブ コメ は of the greedy-capture
scenario: three nouns followed by the particle は. -/
def c4scnk : Chunk :=
  ⟨0, -1, [mkTok 0 "青春" "名詞", mkTok 1 "ラブ" "名詞", mkTok 2 "コメ" "名詞", mkTok 3 "は" "助詞"]⟩

/-- The pattern chunk [*/名詞] は of the greedy-capture scenario:
a noun wildcard slot followed by the literal は. -/
def c4pcnk : Chunk :=
  ⟨0, -1, [mkSlotTok 0 "名詞", mkTok 1 "は" "助詞"]⟩

/-- Sentence of the same-node counterexample: chunk 5 (token a)
links to chunk 6 (token b, root); chunk 7 (token b) links to
chunk 8 (token c, root). -/
def c1sen : Sentence :=
  ⟨[⟨5, 6, [mkTok 10 "a" "A"]⟩, ⟨6, -1, [mkTok 11 "b" "B"]⟩,
    ⟨7, 8, [mkTok 12 "b" "B"]⟩, ⟨8, -1, [mkTok 13 "c" "C"]⟩]⟩

/-- Pattern of the same-node counterexample: the chain
0 (a) to 1 (b) to 2 (c). -/
def c1pat : Sentence :=
  ⟨[⟨0, 1, [mkTok 0 "a" "A"]⟩, ⟨1, 2, [mkTok 1 "b" "B"]⟩, ⟨2, -1, [mkTok 2 "c" "C"]⟩]⟩

/-- The valid-edges table match_tok computes for the same-node
counterexample. -/
def c1vedges : EdgeRes :=
  [((0, 1), [(5, 6)]), ((1, 2), [(7, 8)])]

/-- One-chunk sentence (token a) of the no-candidate witness. -/
def c5sen : Sentence :=
  ⟨[⟨0, -1, [mkTok 0 "a" "A"]⟩]⟩

/-- One-chunk pattern (token z) that matches nothing in c5sen. -/
def c5pat : Sentence :=
  ⟨[⟨0, -1, [mkTok 0 "z" "Z"]⟩]⟩

/-- Sentence S1 to S2 to S3 of the edge-realization witness:
chunk 0 (a) links to chunk 1 (b), chunk 1 links to chunk 2 (b,
root). -/
def c6sen : Sentence :=
  ⟨[⟨0, 1, [mkTok 0 "a" "A"]⟩, ⟨1, 2, [mkTok 1 "b" "B"]⟩, ⟨2, -1, [mkTok 2 "b" "B"]⟩]⟩

/-- Pattern P1 to P2 of the edge-realization witness: chunk 0 (a)
links to chunk 1 (b, root). -/
def c6pat : Sentence :=
  ⟨[⟨0, 1, [mkTok 10 "a" "A"]⟩, ⟨1, -1, [mkTok 11 "b" "B"]⟩]⟩

/-- Two-chunk sentence of the single-chunk-pattern witness: both
chunks carry the token a and match the pattern chunk. -/
def c7sen : Sentence :=
  ⟨[⟨0, 1, [mkTok 0 "a" "A"]⟩, ⟨1, -1, [mkTok 1 "a" "A"]⟩]⟩

/-- The single root pattern chunk of the single-chunk-pattern
witness. -/
def c7pcnk : Chunk :=
  ⟨5, -1, [mkTok 9 "a" "A"]⟩

/-- The token produced by Token.make 0 "a" on the raw feature
list containing the single field N. -/
def c8tok : Token :=
  ⟨0, "a", some "N" :: List.replicate 8 none, false⟩

/-- C2: in the intra-chunk matcher, an exhausted pattern index
succeeds with the captures accumulated so far in INITIAL or
RECORDING mode and fails in NORMAL mode, regardless of leftover
sentence tokens; an exhausted sentence index with pattern tokens
remaining fails. -/
theorem matchToken_termination (stoks ptoks : List Token) (si pi : Nat) :
    (pi ≥ ptoks.length →
      matchToken stoks ptoks si pi Mode.INITIAL = some [] ∧
      matchToken stoks ptoks si pi Mode.RECORDING = some [] ∧
      matchToken stoks ptoks si pi Mode.NORMAL = none) ∧
    (si ≥ stoks.length → pi < ptoks.length →
      ∀ mode, matchToken stoks ptoks si pi mode = none) := by
  constructor
  · intro h
    refine ⟨?_, ?_, ?_⟩ <;> (simp only [matchToken, matchTokenF]; rw [if_pos h])
  · intro hs hp mode
    simp only [matchToken, matchTokenF]
    rw [if_neg (by omega), if_pos hs]

/-- Witness for C2 at concrete inputs: empty pattern succeeds at
once, empty sentence against a nonempty pattern fails. -/
theorem matchToken_termination_witness :
    matchToken [dtok] [] 0 0 Mode.INITIAL = some [] ∧
    matchToken [dtok] [] 0 0 Mode.NORMAL = none ∧
    matchToken [] [dtok] 0 0 Mode.INITIAL = none :=
  ⟨((matchToken_termination [dtok] [] 0 0).1 (by decide)).1,
   ((matchToken_termination [dtok] [] 0 0).1 (by decide)).2.2,
   (matchToken_termination [] [dtok] 0 0).2 (by decide) (by decide) Mode.INITIAL⟩

/-- C9: matching is a pure function of the sentence and pattern
values; two runs on the same inputs return identical results. -/
theorem matchTok_deterministic (sentence pattern : Sentence) :
    (matchTokTwice sentence pattern).1 = (matchTokTwice sentence pattern).2 ∧
    (matchTokTwice sentence pattern).1 = matchTok sentence pattern :=
  ⟨rfl, rfl⟩

/-- C3: token equality holds exactly when either token is
wildcard-marked or the dictionary forms agree, the parts of
speech agree, and every detailed part-of-speech slot pair agrees
or has an unspecified side. -/
theorem tokenEq_characterization (a b : Token) :
    Token.beq a b = true ↔
      ((a.surface = "" ∨ b.surface = "" ∨ a.dictform = b.dictform) ∧
       a.pos = b.pos ∧
       ∀ sp ∈ a.detailed_pos.zip b.detailed_pos, sp.1 = none ∨ sp.2 = none ∨ sp.1 = sp.2) := by
  simp only [Token.beq, Token.is_wild]
  split_ifs with h1 h2
  · simp only [Bool.and_eq_true, Bool.not_eq_true', beq_eq_false_iff_ne, ne_eq,
      beq_iff_eq] at h1
    constructor
    · intro h; cases h
    · rintro ⟨hw, -, -⟩
      rcases hw with h | h | h
      · exact absurd h h1.1.1
      · exact absurd h h1.1.2
      · exact absurd h h1.2
  · simp only [Bool.not_eq_true', beq_eq_false_iff_ne, ne_eq] at h2
    constructor
    · intro h; cases h
    · rintro ⟨-, hp, -⟩; exact absurd hp h2
  · simp only [Bool.and_eq_true, Bool.not_eq_true', beq_eq_false_iff_ne, ne_eq, not_and,
      not_not, beq_iff_eq, Bool.not_eq_false] at h1 h2
    simp only [List.all_eq_true, Bool.or_eq_true, beq_iff_eq, Option.isNone_iff_eq_none]
    constructor
    · intro hall
      refine ⟨?_, h2, fun sp hsp => (or_assoc).mp (hall sp hsp)⟩
      by_cases ha : a.surface = ""
      · exact Or.inl ha
      · by_cases hb : b.surface = ""
        · exact Or.inr (Or.inl hb)
        · exact Or.inr (Or.inr (h1 ⟨ha, hb⟩))
    · rintro ⟨-, -, hall⟩
      exact fun sp hsp => (or_assoc).mpr (hall sp hsp)

/-- C8 (amended): a successfully constructed Token always has
exactly 9 feature slots, and construction fails exactly when the
raw feature list has more than 9 fields, or its first field is
the unspecified marker or empty. -/
theorem tokenMake_error_iff (tid : Nat) (surface : String) (raw : List String) :
    (∀ t, Token.make tid surface raw = some t → t.feature.length = 9) ∧
    (Token.make tid surface raw = none ↔
      (raw.length > 9 ∨ raw.headD "*" = "*" ∨ raw.headD "" = "")) := by
  by_cases hlen : raw.length ≤ 9
  · have hpad : (padFeature raw).length = 9 := by
      simp only [padFeature, List.length_append, List.length_replicate]; omega
    cases raw with
    | nil =>
      constructor
      · intro t ht
        simp [Token.make, padFeature, emptyToNone] at ht
      · simp [Token.make, padFeature, emptyToNone]
    | cons h t =>
      simp only [List.length_cons] at hlen
      by_cases hh : h = "*"
      · subst hh
        constructor
        · intro tk htk
          rw [Token.make, if_pos hpad] at htk
          simp [padFeature, emptyToNone] at htk
        · rw [Token.make, if_pos hpad]
          simp [padFeature, emptyToNone]
      · by_cases he : h = ""
        · subst he
          constructor
          · intro tk htk
            rw [Token.make, if_pos hpad] at htk
            simp [padFeature, emptyToNone] at htk
          · rw [Token.make, if_pos hpad]
            simp [padFeature, emptyToNone]
        · constructor
          · intro tk htk
            rw [Token.make, if_pos hpad] at htk
            by_cases hend : h.data.getLast? = some (Char.ofNat 42)
            · simp [padFeature, emptyToNone, hh, he, hend] at htk
              rw [← htk]
              simp
              omega
            · simp [padFeature, emptyToNone, hh, he, hend] at htk
              rw [← htk]
              simp
              omega
          · rw [Token.make, if_pos hpad]
            by_cases hend : h.data.getLast? = some (Char.ofNat 42) <;>
              simp [padFeature, emptyToNone, hh, he, hend] <;> omega
  · have hpadlen : (padFeature raw).length = raw.length := by
      simp only [padFeature, List.length_append, List.length_replicate]; omega
    constructor
    · intro t ht
      rw [Token.make, if_neg (by omega)] at ht
      cases ht
    · rw [Token.make, if_neg (by omega)]
      simp only [true_iff]
      left; omega

/-- C8 (counterexample): the claimed equivalence fails as stated,
since a feature list that does normalize to 9 fields can still
make construction raise, namely when the part-of-speech field is
the unspecified marker. -/
theorem tokenMake_error_not_only_overflow :
    Token.make 0 "x" ["*"] = none ∧ (["*"] : List String).length ≤ 9 :=
  ⟨rfl, by decide⟩

/-- Witness for C8 (amended) at concrete inputs: a 10-field raw
list fails, a 1-field raw list is padded and yields 9 slots. -/
theorem tokenMake_error_iff_witness :
    Token.make 0 "a" ["a0", "a1", "a2", "a3", "a4", "a5", "a6", "a7", "a8", "a9"] = none ∧
    (∃ t, Token.make 0 "a" ["N"] = some t ∧ t.feature.length = 9) :=
  ⟨(tokenMake_error_iff 0 "a" ["a0", "a1", "a2", "a3", "a4", "a5", "a6", "a7", "a8", "a9"]).2.mpr
      (Or.inl (by decide)),
   ⟨c8tok, rfl, (tokenMake_error_iff 0 "a" ["N"]).1 c8tok rfl⟩⟩

/-- C10: a token line whose first feature field is the
unspecified marker makes the constructor raise, and every
successfully constructed Token has a present part of speech. -/
theorem tokenMake_pos_present (tid : Nat) (surface : String) (raw : List String) :
    (raw.headD "" = "*" → Token.make tid surface raw = none) ∧
    (∀ t, Token.make tid surface raw = some t → ∃ p, t.pos = some p) := by
  constructor
  · intro hstar
    cases raw with
    | nil => simp at hstar
    | cons h t =>
      simp only [List.headD_cons] at hstar
      subst hstar
      by_cases hpad : (padFeature ("*" :: t)).length = 9
      · rw [Token.make, if_pos hpad]
        simp [padFeature, emptyToNone]
      · rw [Token.make, if_neg hpad]
  · intro tk htk
    by_cases hpad : (padFeature raw).length = 9
    · cases raw with
      | nil =>
        rw [Token.make, if_pos hpad] at htk
        simp [padFeature, emptyToNone] at htk
      | cons h t =>
        rw [Token.make, if_pos hpad] at htk
        by_cases hh : h = "*"
        · subst hh
          simp [padFeature, emptyToNone] at htk
        · by_cases he : h = ""
          · subst he
            simp [padFeature, emptyToNone] at htk
          · by_cases hend : h.data.getLast? = some (Char.ofNat 42)
            · simp [padFeature, emptyToNone, hh, he, hend] at htk
              rw [← htk]
              exact ⟨String.mk h.data.dropLast, rfl⟩
            · simp [padFeature, emptyToNone, hh, he, hend] at htk
              rw [← htk]
              exact ⟨h, rfl⟩
    · rw [Token.make, if_neg hpad] at htk
      cases htk

/-- Witness for C10 at concrete inputs. -/
theorem tokenMake_pos_present_witness :
    Token.make 0 "x" ["*"] = none ∧ ∃ p, c8tok.pos = some p :=
  ⟨(tokenMake_pos_present 0 "x" ["*"]).1 rfl,
   (tokenMake_pos_present 0 "a" ["N"]).2 c8tok rfl⟩

theorem matchTokenF_congr (stoks ptoks : List Token) :
    ∀ (f g si pi : Nat) (mode : Mode),
      (stoks.length - si) + (ptoks.length - pi) < f →
      (stoks.length - si) + (ptoks.length - pi) < g →
      matchTokenF stoks ptoks f si pi mode = matchTokenF stoks ptoks g si pi mode := by
  intro f
  induction f with
  | zero => intro g si pi mode hf hg; omega
  | succ f ih =>
    intro g si pi mode hf hg
    cases g with
    | zero => omega
    | succ g =>
      simp only [matchTokenF]
      by_cases h1 : pi ≥ ptoks.length
      · rw [if_pos h1, if_pos h1]
      · rw [if_neg h1, if_neg h1]
        by_cases h2 : si ≥ stoks.length
        · rw [if_pos h2, if_pos h2]
        · rw [if_neg h2, if_neg h2]
          by_cases h3 : ((ptoks.getD pi dtok).is_slot && Token.beq (stoks.getD si dtok) (ptoks.getD pi dtok)) = true
          · rw [if_pos h3, if_pos h3]
            rw [ih g (si + 1) pi Mode.RECORDING (by omega) (by omega)]
            rw [ih g (si + 1) (pi + 1) Mode.RECORDING (by omega) (by omega)]
          · rw [if_neg h3, if_neg h3]
            by_cases h4 : ((ptoks.getD pi dtok).is_slot && !Token.beq (stoks.getD si dtok) (ptoks.getD pi dtok)) = true
            · rw [if_pos h4, if_pos h4]
              cases mode with
              | INITIAL => rfl
              | RECORDING => exact ih g si (pi + 1) Mode.NORMAL (by omega) (by omega)
              | NORMAL => rfl
            · rw [if_neg h4, if_neg h4]
              by_cases h5 : (!(ptoks.getD pi dtok).is_slot && Token.beq (stoks.getD si dtok) (ptoks.getD pi dtok)) = true
              · rw [if_pos h5, if_pos h5]
                exact ih g (si + 1) (pi + 1) mode (by omega) (by omega)
              · rw [if_neg h5, if_neg h5]

theorem matchToken_unfold (stoks ptoks : List Token) (si pi : Nat) (mode : Mode) :
    matchToken stoks ptoks si pi mode =
      if pi ≥ ptoks.length then
        match mode with
        | Mode.INITIAL => some []
        | Mode.RECORDING => some []
        | Mode.NORMAL => none
      else if si ≥ stoks.length then none
      else
        if (ptoks.getD pi dtok).is_slot && Token.beq (stoks.getD si dtok) (ptoks.getD pi dtok) then
          match matchToken stoks ptoks (si + 1) pi Mode.RECORDING with
          | some res => some (dictPrepend res (ptoks.getD pi dtok).tid (stoks.getD si dtok))
          | none =>
            match matchToken stoks ptoks (si + 1) (pi + 1) Mode.RECORDING with
            | some res => some (dictPrepend res (ptoks.getD pi dtok).tid (stoks.getD si dtok))
            | none => none
        else if (ptoks.getD pi dtok).is_slot && !Token.beq (stoks.getD si dtok) (ptoks.getD pi dtok) then
          match mode with
          | Mode.INITIAL => none
          | Mode.RECORDING => matchToken stoks ptoks si (pi + 1) Mode.NORMAL
          | Mode.NORMAL => none
        else if !(ptoks.getD pi dtok).is_slot && Token.beq (stoks.getD si dtok) (ptoks.getD pi dtok) then
          matchToken stoks ptoks (si + 1) (pi + 1) mode
        else none := by
  simp only [matchToken]
  conv_lhs => simp only [matchTokenF]
  by_cases h1 : pi ≥ ptoks.length
  · rw [if_pos h1, if_pos h1]
  · rw [if_neg h1, if_neg h1]
    by_cases h2 : si ≥ stoks.length
    · rw [if_pos h2, if_pos h2]
    · rw [if_neg h2, if_neg h2]
      by_cases h3 : ((ptoks.getD pi dtok).is_slot && Token.beq (stoks.getD si dtok) (ptoks.getD pi dtok)) = true
      · rw [if_pos h3, if_pos h3]
        rw [matchTokenF_congr stoks ptoks (stoks.length + ptoks.length) (stoks.length + ptoks.length + 1) (si + 1) pi Mode.RECORDING (by omega) (by omega)]
        rw [matchTokenF_congr stoks ptoks (stoks.length + ptoks.length) (stoks.length + ptoks.length + 1) (si + 1) (pi + 1) Mode.RECORDING (by omega) (by omega)]
      · rw [if_neg h3, if_neg h3]
        by_cases h4 : ((ptoks.getD pi dtok).is_slot && !Token.beq (stoks.getD si dtok) (ptoks.getD pi dtok)) = true
        · rw [if_pos h4, if_pos h4]
          cases mode with
          | INITIAL => rfl
          | RECORDING =>
            exact matchTokenF_congr stoks ptoks (stoks.length + ptoks.length) (stoks.length + ptoks.length + 1) si (pi + 1) Mode.NORMAL (by omega) (by omega)
          | NORMAL => rfl
        · rw [if_neg h4, if_neg h4]
          by_cases h5 : (!(ptoks.getD pi dtok).is_slot && Token.beq (stoks.getD si dtok) (ptoks.getD pi dtok)) = true
          · rw [if_pos h5, if_pos h5]
            exact matchTokenF_congr stoks ptoks (stoks.length + ptoks.length) (stoks.length + ptoks.length + 1) (si + 1) (pi + 1) mode (by omega) (by omega)
          · rw [if_neg h5, if_neg h5]

/-- C4: matching the sentence chunk 青春 ラブ コメ は against the
pattern [noun slot, literal は] succeeds and captures all three
nouns as one span in left-to-right order; and in general, when a
slot pattern token equals the sentence token, the matcher first
tries the longer capture (advancing only the sentence index) and
falls back to closing the capture only when the longer attempt
fails. -/
theorem matchChunk_greedy :
    matchChunk c4scnk c4pcnk =
      some [(0, [mkTok 0 "青春" "名詞", mkTok 1 "ラブ" "名詞", mkTok 2 "コメ" "名詞"])] ∧
    ∀ (stoks ptoks : List Token) (si pi : Nat) (mode : Mode),
      si < stoks.length → pi < ptoks.length →
      (ptoks.getD pi dtok).is_slot = true →
      Token.beq (stoks.getD si dtok) (ptoks.getD pi dtok) = true →
      matchToken stoks ptoks si pi mode =
        (match matchToken stoks ptoks (si + 1) pi Mode.RECORDING with
         | some res => some (dictPrepend res (ptoks.getD pi dtok).tid (stoks.getD si dtok))
         | none =>
           match matchToken stoks ptoks (si + 1) (pi + 1) Mode.RECORDING with
           | some res => some (dictPrepend res (ptoks.getD pi dtok).tid (stoks.getD si dtok))
           | none => none) := by
  constructor
  · rfl
  · intro stoks ptoks si pi mode hs hp hslot heq
    rw [matchToken_unfold]
    rw [if_neg (by omega), if_neg (by omega), if_pos (by rw [hslot, heq]; rfl)]

/-- A failing element makes an Option foldlM fail from any
accumulator. -/
theorem foldlM_eq_none {α β : Type} (f : β → α → Option β) (x : α)
    (hf : ∀ b, f b x = none) :
    ∀ (l : List α), x ∈ l → ∀ acc, l.foldlM f acc = none := by
  intro l
  induction l with
  | nil => intro hx; cases hx
  | cons y ys ih =>
    intro hx acc
    rw [List.foldlM_cons]
    rcases List.mem_cons.mp hx with rfl | hmem
    · rw [hf acc]
      rfl
    · cases h : f acc y with
      | none => rfl
      | some b =>
        simpa using ih hmem b

theorem chunkMatches_nil_of (sentence : Sentence) (p : Chunk)
    (h : ∀ s ∈ sentence.cnks, matchChunk s p = none) :
    chunkMatches sentence p = [] := by
  unfold chunkMatches
  have key : ∀ (l : List Chunk), (∀ s ∈ l, matchChunk s p = none) →
      ∀ (acc : CnkRes), l.foldl (chunkStep p) acc = acc := by
    intro l
    induction l with
    | nil => intro hl acc; rfl
    | cons s ss ih =>
      intro hl acc
      have h0 : chunkStep p acc s = acc := by
        unfold chunkStep
        rw [hl s (List.mem_cons_self s ss)]
      rw [List.foldl_cons, h0]
      exact ih (fun x hx => hl x (List.mem_cons_of_mem s hx)) acc
  exact key sentence.cnks h []

/-- C5: when some pattern chunk matches no sentence chunk in
Step 1, or some non-root pattern chunk has no realizing sentence
edge in Step 2, match_tok and match return an absent result. -/
theorem matchTok_none_of_missing (sentence pattern : Sentence)
    (h : (∃ p ∈ pattern.cnks, ∀ s ∈ sentence.cnks, matchChunk s p = none) ∨
         (∃ mres, step1 sentence pattern = some mres ∧
           ∃ pe ∈ mres, Sentence.linkOf pattern pe.1 ≠ -1 ∧
             step2edges sentence mres pe.2 (Sentence.linkOf pattern pe.1) = [])) :
    matchTok sentence pattern = none ∧ matchToList sentence pattern = none := by
  have hmain : matchTok sentence pattern = none := by
    rcases h with ⟨p, hp, hnone⟩ | ⟨mres, hm, pe, hpe, hroot, hedges⟩
    · have h1 : step1 sentence pattern = none := by
        refine foldlM_eq_none (step1f sentence) p ?_ pattern.cnks hp []
        intro b
        unfold step1f
        rw [chunkMatches_nil_of sentence p hnone]
        rfl
      unfold matchTok
      rw [h1]
    · have h2 : step2 sentence pattern mres = none := by
        refine foldlM_eq_none (step2f sentence pattern mres) pe ?_ mres hpe []
        intro b
        unfold step2f
        rw [if_neg hroot, hedges]
        rfl
      unfold matchTok
      rw [hm]
      simp [h2]
  exact ⟨hmain, by unfold matchToList; rw [hmain]; rfl⟩

/-- Witness for C5: a one-chunk pattern with no candidates. -/
theorem matchTok_none_witness :
    matchTok c5sen c5pat = none ∧ matchToList c5sen c5pat = none :=
  matchTok_none_of_missing c5sen c5pat
    (Or.inl ⟨⟨0, -1, [mkTok 0 "z" "Z"]⟩, by decide, by decide⟩)

theorem mem_map_fst_dictSet {α β : Type} [DecidableEq α] (d : List (α × β)) (k : α) (v : β) (c : α) :
    c ∈ (dictSet d k v).map Prod.fst ↔ c = k ∨ c ∈ d.map Prod.fst := by
  induction d with
  | nil => simp [dictSet]
  | cons hd tl ih =>
    obtain ⟨k0, v0⟩ := hd
    by_cases hk : k0 = k
    · subst hk
      simp only [dictSet, eq_self_iff_true, if_true, List.map_cons, List.mem_cons]
      tauto
    · simp only [dictSet, if_neg hk]
      simp only [List.map_cons, List.mem_cons, ih]
      tauto

theorem dictSet_fresh {α β : Type} [DecidableEq α] (d : List (α × β)) (k : α) (v : β)
    (h : k ∉ d.map Prod.fst) : dictSet d k v = d ++ [(k, v)] := by
  induction d with
  | nil => rfl
  | cons hd tl ih =>
    obtain ⟨k0, v0⟩ := hd
    simp only [List.map_cons, List.mem_cons] at h
    push_neg at h
    simp only [dictSet, if_neg (Ne.symm h.1)]
    rw [ih h.2]
    rfl

theorem mem_keys_chunkMatches (sentence : Sentence) (p : Chunk) (c : Int) :
    c ∈ (chunkMatches sentence p).map Prod.fst ↔
      ∃ s ∈ sentence.cnks, s.cid = c ∧ (matchChunk s p).isSome := by
  have key : ∀ (l : List Chunk) (acc : CnkRes),
      c ∈ (l.foldl (chunkStep p) acc).map Prod.fst ↔
        c ∈ acc.map Prod.fst ∨ ∃ s ∈ l, s.cid = c ∧ (matchChunk s p).isSome := by
    intro l
    induction l with
    | nil => intro acc; simp
    | cons s ss ih =>
      intro acc
      rw [List.foldl_cons]
      cases h : matchChunk s p with
      | none =>
        have h0 : chunkStep p acc s = acc := by
          unfold chunkStep
          rw [h]
        rw [h0, ih]
        simp [h]
      | some r =>
        have h0 : chunkStep p acc s = dictSet acc s.cid r := by
          unfold chunkStep
          rw [h]
        rw [h0, ih]
        simp only [mem_map_fst_dictSet, List.mem_cons]
        constructor
        · rintro (⟨rfl | hacc⟩ | hex)
          · exact Or.inr ⟨s, Or.inl rfl, rfl, by simp [h]⟩
          · exact Or.inl hacc
          · obtain ⟨x, hx, hcx, hsx⟩ := hex
            exact Or.inr ⟨x, Or.inr hx, hcx, hsx⟩
        · rintro (hacc | ⟨x, hx | hx, hcx, hsx⟩)
          · exact Or.inl (Or.inr hacc)
          · subst hx
            exact Or.inl (Or.inl hcx.symm)
          · exact Or.inr ⟨x, hx, hcx, hsx⟩
  unfold chunkMatches
  rw [key sentence.cnks []]
  simp

theorem step1_foldlM_eq (sentence : Sentence) :
    ∀ (l : List Chunk) (acc mres : MatchRes),
      (l.map Chunk.cid).Nodup →
      (∀ p ∈ l, p.cid ∉ acc.map Prod.fst) →
      l.foldlM (step1f sentence) acc = some mres →
      mres = acc ++ l.map (fun p => (p.cid, chunkMatches sentence p)) := by
  intro l
  induction l with
  | nil =>
    intro acc mres _ _ h
    simp only [List.foldlM_nil] at h
    cases h
    simp
  | cons p ps ih =>
    intro acc mres hnd hfresh h
    rw [List.foldlM_cons] at h
    cases hsf : step1f sentence acc p with
    | none =>
      rw [hsf] at h
      cases h
    | some acc2 =>
      rw [hsf] at h
      have h2 : ps.foldlM (step1f sentence) acc2 = some mres := by simpa using h
      have hacc2 : acc2 = acc ++ [(p.cid, chunkMatches sentence p)] := by
        unfold step1f at hsf
        by_cases hempty : (chunkMatches sentence p).isEmpty
        · rw [if_pos hempty] at hsf
          cases hsf
        · rw [if_neg hempty] at hsf
          cases hsf
          exact dictSet_fresh acc p.cid (chunkMatches sentence p)
            (hfresh p (List.mem_cons_self p ps))
      subst hacc2
      simp only [List.map_cons, List.nodup_cons] at hnd
      have hstep := ih (acc ++ [(p.cid, chunkMatches sentence p)]) mres hnd.2 ?_ h2
      · rw [hstep]
        simp
      · intro q hq
        have hq1 : q.cid ∉ acc.map Prod.fst := hfresh q (List.mem_cons_of_mem p hq)
        have hq2 : q.cid ≠ p.cid := by
          intro hcontra
          exact hnd.1 (hcontra ▸ List.mem_map_of_mem Chunk.cid hq)
        simp [hq1, hq2]

theorem dictFind_map_of_nodup (sentence : Sentence) (l : List Chunk) (q : Chunk)
    (hnd : (l.map Chunk.cid).Nodup) (hq : q ∈ l) :
    dictFind (l.map fun p => (p.cid, chunkMatches sentence p)) q.cid =
      some (chunkMatches sentence q) := by
  induction l with
  | nil => cases hq
  | cons p ps ih =>
    simp only [List.map_cons, List.nodup_cons] at hnd ⊢
    rw [dictFind]
    by_cases hc : p.cid = q.cid
    · rw [if_pos hc]
      rcases List.mem_cons.mp hq with rfl | hmem
      · rfl
      · exact absurd (hc ▸ List.mem_map_of_mem Chunk.cid hmem) hnd.1
    · rw [if_neg hc]
      rcases List.mem_cons.mp hq with rfl | hmem
      · exact absurd rfl hc
      · exact ih hnd.2 hmem

/-- C6: in Step 2, a sentence edge (a, b) is recorded for the
pattern edge out of pc exactly when a is the id of a sentence
chunk that matched pc, b is the dependency target of a, and b is
the id of a sentence chunk that matched the link target pl. -/
theorem step2edges_characterization (sentence pattern : Sentence) (mres : MatchRes)
    (pc pl : Chunk)
    (hnd : (pattern.cnks.map Chunk.cid).Nodup)
    (h1 : step1 sentence pattern = some mres)
    (hpc : pc ∈ pattern.cnks) (hpl : pl ∈ pattern.cnks) (hlink : pl.cid = pc.link)
    (a b : Int) :
    ((a, b) ∈ step2edges sentence mres ((dictFind mres pc.cid).getD []) pc.link) ↔
      ((∃ s ∈ sentence.cnks, s.cid = a ∧ (matchChunk s pc).isSome) ∧
       b = Sentence.linkOf sentence a ∧
       (∃ s ∈ sentence.cnks, s.cid = b ∧ (matchChunk s pl).isSome)) := by
  have hstruct : mres = pattern.cnks.map fun p => (p.cid, chunkMatches sentence p) := by
    have hx := step1_foldlM_eq sentence pattern.cnks [] mres hnd (by simp) h1
    simpa using hx
  have hfindc : dictFind mres pc.cid = some (chunkMatches sentence pc) := by
    rw [hstruct]
    exact dictFind_map_of_nodup sentence pattern.cnks pc hnd hpc
  have hfindl : dictFind mres pc.link = some (chunkMatches sentence pl) := by
    rw [hstruct, ← hlink]
    exact dictFind_map_of_nodup sentence pattern.cnks pl hnd hpl
  rw [hfindc]
  unfold step2edges
  simp only [Option.getD_some]
  rw [List.mem_filterMap]
  constructor
  · rintro ⟨scid, hmem, heq⟩
    by_cases hin : Sentence.linkOf sentence scid ∈ ((dictFind mres pc.link).getD []).map Prod.fst
    · rw [if_pos hin] at heq
      rw [hfindl] at hin
      simp only [Option.getD_some] at hin
      injection heq with hpair
      injection hpair with ha hb
      subst ha
      subst hb
      exact ⟨(mem_keys_chunkMatches sentence pc scid).mp hmem, rfl,
        (mem_keys_chunkMatches sentence pl (Sentence.linkOf sentence scid)).mp hin⟩
    · rw [if_neg hin] at heq
      cases heq
  · rintro ⟨ha, hb, hbl⟩
    subst hb
    refine ⟨a, (mem_keys_chunkMatches sentence pc a).mpr ha, ?_⟩
    have hin : Sentence.linkOf sentence a ∈ ((dictFind mres pc.link).getD []).map Prod.fst := by
      rw [hfindl]
      simpa using (mem_keys_chunkMatches sentence pl (Sentence.linkOf sentence a)).mpr hbl
    rw [if_pos hin]

/-- Witness for C6 on the sentence S1-S2-S3 against the pattern
P1-P2 of the claim: only the sentence edge (S1, S2) realizes the
pattern edge, not (S1, S3). -/
theorem step2edges_characterization_witness :
    ((0 : Int), (1 : Int)) ∈ step2edges c6sen ((step1 c6sen c6pat).getD [])
        ((dictFind ((step1 c6sen c6pat).getD []) (0 : Int)).getD []) 1 ∧
    ¬(((0 : Int), (2 : Int)) ∈ step2edges c6sen ((step1 c6sen c6pat).getD [])
        ((dictFind ((step1 c6sen c6pat).getD []) (0 : Int)).getD []) 1) := by
  have h := step2edges_characterization c6sen c6pat ((step1 c6sen c6pat).getD [])
    ⟨0, 1, [mkTok 10 "a" "A"]⟩ ⟨1, -1, [mkTok 11 "b" "B"]⟩
    (by decide) rfl (by decide) (by decide) rfl
  constructor
  · exact (h 0 1).mpr ⟨⟨⟨0, 1, [mkTok 0 "a" "A"]⟩, by decide, rfl, by decide⟩, by decide,
      ⟨⟨1, 2, [mkTok 1 "b" "B"]⟩, by decide, rfl, by decide⟩⟩
  · intro hmem
    have h2 := (h 0 2).mp hmem
    exact absurd h2.2.1 (by decide)

theorem chunkMatches_eq_filterMap (sentence : Sentence) (p : Chunk)
    (hnd : (sentence.cnks.map Chunk.cid).Nodup) :
    chunkMatches sentence p =
      sentence.cnks.filterMap fun s => (matchChunk s p).map fun r => (s.cid, r) := by
  have key : ∀ (l : List Chunk) (acc : CnkRes),
      (l.map Chunk.cid).Nodup →
      (∀ s ∈ l, s.cid ∉ acc.map Prod.fst) →
      l.foldl (chunkStep p) acc =
        acc ++ l.filterMap fun s => (matchChunk s p).map fun r => (s.cid, r) := by
    intro l
    induction l with
    | nil => intro acc _ _; simp
    | cons s ss ih =>
      intro acc hnd hfresh
      simp only [List.map_cons, List.nodup_cons] at hnd
      rw [List.foldl_cons]
      cases h : matchChunk s p with
      | none =>
        have h0 : chunkStep p acc s = acc := by
          unfold chunkStep
          rw [h]
        rw [h0, ih acc hnd.2 (fun q hq => hfresh q (List.mem_cons_of_mem s hq))]
        have h1 : ((matchChunk s p).map fun r => (s.cid, r)) = none := by
          rw [h]; rfl
        rw [List.filterMap_cons, h1]
      | some r =>
        have h0 : chunkStep p acc s = acc ++ [(s.cid, r)] := by
          unfold chunkStep
          rw [h]
          exact dictSet_fresh acc s.cid r (hfresh s (List.mem_cons_self s ss))
        rw [h0, ih (acc ++ [(s.cid, r)]) hnd.2 ?_]
        · have h1 : ((matchChunk s p).map fun r => (s.cid, r)) = some (s.cid, r) := by
            rw [h]; rfl
          rw [List.filterMap_cons, h1, List.append_assoc]
          rfl
        · intro q hq
          have hq1 : q.cid ∉ acc.map Prod.fst := hfresh q (List.mem_cons_of_mem s hq)
          have hq2 : q.cid ≠ s.cid := fun hc => hnd.1 (hc ▸ List.mem_map_of_mem Chunk.cid hq)
          simp [hq1, hq2]
  have hk := key sentence.cnks [] hnd (by simp)
  simpa [chunkMatches] using hk

theorem length_filterMap_matches {α β : Type} (f : α → Option β) (l : List α) :
    (l.filterMap f).length = (l.filter fun a => (f a).isSome).length := by
  induction l with
  | nil => rfl
  | cons x xs ih =>
    cases h : f x with
    | none => simp [List.filterMap_cons, List.filter_cons, h, ih]
    | some b => simp [List.filterMap_cons, List.filter_cons, h, ih]

/-- C7: a single-chunk root pattern with at least one matching
sentence chunk yields one record per matching sentence chunk, in
sentence order, each being that chunk capture mapping, with no
edge reasoning involved. -/
theorem matchTok_single_chunk (sentence : Sentence) (p : Chunk)
    (hnd : (sentence.cnks.map Chunk.cid).Nodup)
    (hroot : p.link = -1)
    (hex : ∃ s ∈ sentence.cnks, (matchChunk s p).isSome) :
    matchTok sentence ⟨[p]⟩ = some (sentence.cnks.filterMap fun s => matchChunk s p) ∧
    (sentence.cnks.filterMap fun s => matchChunk s p).length =
      (sentence.cnks.filter fun s => (matchChunk s p).isSome).length := by
  refine ⟨?_, length_filterMap_matches _ _⟩
  have hne : ¬(chunkMatches sentence p).isEmpty = true := by
    obtain ⟨s, hs, hsome⟩ := hex
    have hmem : s.cid ∈ (chunkMatches sentence p).map Prod.fst :=
      (mem_keys_chunkMatches sentence p s.cid).mpr ⟨s, hs, rfl, hsome⟩
    intro hempty
    cases hcm : chunkMatches sentence p with
    | nil =>
      rw [hcm] at hmem
      cases hmem
    | cons x xs =>
      rw [hcm] at hempty
      cases hempty
  have h1 : step1 sentence ⟨[p]⟩ = some [(p.cid, chunkMatches sentence p)] := by
    unfold step1
    show List.foldlM (step1f sentence) [] [p] = _
    rw [List.foldlM_cons]
    unfold step1f
    rw [if_neg hne]
    rfl
  have hlink : Sentence.linkOf (⟨[p]⟩ : Sentence) p.cid = -1 := by
    unfold Sentence.linkOf Sentence.get_cnk
    show ((List.find? (fun c => c.cid == p.cid) [p]).map Chunk.link).getD (-2) = -1
    simp [hroot]
  have h2 : step2 sentence ⟨[p]⟩ [(p.cid, chunkMatches sentence p)] = some [] := by
    unfold step2
    rw [List.foldlM_cons]
    unfold step2f
    simp [hlink]
  have h3 : matchTok sentence ⟨[p]⟩ =
      some ([(p.cid, chunkMatches sentence p)].flatMap fun pe => pe.2.map Prod.snd) := by
    unfold matchTok
    rw [h1]
    simp [h2]
  rw [h3]
  simp only [List.flatMap_cons, List.flatMap_nil, List.append_nil]
  rw [chunkMatches_eq_filterMap sentence p hnd]
  rw [List.map_filterMap]
  simp [Option.map_map, Function.comp]

/-- Witness for C7: a two-chunk sentence with both chunks
matching yields exactly two records. -/
theorem matchTok_single_chunk_witness :
    matchTok c7sen ⟨[c7pcnk]⟩ = some (c7sen.cnks.filterMap fun s => matchChunk s c7pcnk) ∧
    (c7sen.cnks.filterMap fun s => matchChunk s c7pcnk).length =
      (c7sen.cnks.filter fun s => (matchChunk s c7pcnk).isSome).length :=
  matchTok_single_chunk c7sen c7pcnk (by decide) rfl
    ⟨⟨0, 1, [mkTok 0 "a" "A"]⟩, by decide, by decide⟩

theorem listProd_getElem? {α β : Type} (xs : List α) (ys : List β) :
    ∀ (i j : Nat) (x : α) (y : β), xs[i]? = some x → ys[j]? = some y →
      (listProd xs ys)[i * ys.length + j]? = some (x, y) := by
  induction xs with
  | nil => intro i j x y hx hy; simp at hx
  | cons a xs ih =>
    intro i j x y hx hy
    cases i with
    | zero =>
      simp only [List.getElem?_cons_zero] at hx
      injection hx with hx
      subst hx
      simp only [listProd, List.flatMap_cons, Nat.zero_mul, Nat.zero_add]
      have hj : j < ys.length := by
        obtain ⟨hjj, -⟩ := List.getElem?_eq_some_iff.mp hy
        exact hjj
      rw [List.getElem?_append_left (by simpa using hj)]
      rw [List.getElem?_map, hy]
      rfl
    | succ i =>
      simp only [List.getElem?_cons_succ] at hx
      simp only [listProd, List.flatMap_cons]
      rw [List.getElem?_append_right (by simp [Nat.succ_mul]; omega)]
      have hidx : (i + 1) * ys.length + j - (ys.map fun y => (a, y)).length =
          i * ys.length + j := by
        simp only [List.length_map]
        rw [Nat.succ_mul]
        omega
      rw [hidx]
      exact ih i j x y hx hy

/-- C1 (amended): a combination accepted by the same-node check
agrees with the pattern edges on identity, separately among edge
starts and among edge ends: pattern edges i and j share a start
exactly when the chosen sentence edges i and j share a start, and
likewise for ends.  The counterexample shows the two families are
not linked: a pattern chunk id occurring both as an end and as a
start may be paired with two different sentence chunk ids, so the
combined assignment need not be a consistent partial function. -/
theorem sameNode_positionwise (ps ss : List (Int × Int)) (i j : Nat)
    (hlen : ps.length = ss.length)
    (h : sameNode ps = sameNode ss) :
    ∀ (pi pj si sj : Int × Int),
      ps[i]? = some pi → ps[j]? = some pj → ss[i]? = some si → ss[j]? = some sj →
      ((pi.1 = pj.1 ↔ si.1 = sj.1) ∧ (pi.2 = pj.2 ↔ si.2 = sj.2)) := by
  intro pi pj si sj hpi hpj hsi hsj
  have h1 : (sameNode ps)[i * ps.length + j]? = some (pi.1 == pj.1, pi.2 == pj.2) := by
    unfold sameNode
    rw [List.getElem?_map, listProd_getElem? ps ps i j pi pj hpi hpj]
    rfl
  have h2 : (sameNode ss)[i * ss.length + j]? = some (si.1 == sj.1, si.2 == sj.2) := by
    unfold sameNode
    rw [List.getElem?_map, listProd_getElem? ss ss i j si sj hsi hsj]
    rfl
  rw [h, hlen, h2] at h1
  injection h1 with hpair
  have hb1 : (si.1 == sj.1) = (pi.1 == pj.1) := congrArg Prod.fst hpair
  have hb2 : (si.2 == sj.2) = (pi.2 == pj.2) := congrArg Prod.snd hpair
  constructor
  · rw [← beq_iff_eq (a := pi.1) (b := pj.1), ← beq_iff_eq (a := si.1) (b := sj.1), hb1]
  · rw [← beq_iff_eq (a := pi.2) (b := pj.2), ← beq_iff_eq (a := si.2) (b := sj.2), hb2]

/-- Witness for C1 (amended) at the concrete edge lists of the
counterexample. -/
theorem sameNode_positionwise_witness :
    ((0 : Int) = 1 ↔ (5 : Int) = 7) ∧ ((1 : Int) = 2 ↔ (6 : Int) = 8) :=
  sameNode_positionwise [((0 : Int), (1 : Int)), (1, 2)] [((5 : Int), (6 : Int)), (7, 8)] 0 1
    rfl (by decide) (0, 1) (1, 2) (5, 6) (7, 8) rfl rfl rfl rfl

/-- C1 (counterexample): match_tok on the chain pattern 0-1-2
accepts the combination pairing pattern edge (0,1) with sentence
edge (5,6) and pattern edge (1,2) with sentence edge (7,8), and
produces an output record from it, although the pattern chunk id
1 is paired with sentence chunk 6 as the end of the first edge
and with the distinct sentence chunk 7 as the start of the second
edge: the induced assignment is not a function, refuting the
claim as stated. -/
theorem sameNode_not_function_cex :
    step2 c1sen c1pat ((step1 c1sen c1pat).getD []) = some c1vedges ∧
    [((5 : Int), (6 : Int)), (7, 8)] ∈ cartProd (c1vedges.map Prod.snd) ∧
    sameNode (c1vedges.map Prod.fst) = sameNode [((5 : Int), (6 : Int)), (7, 8)] ∧
    matchTok c1sen c1pat = some [[]] ∧
    (flattenEdges (c1vedges.map Prod.fst)).getD 1 0 = 1 ∧
    (flattenEdges (c1vedges.map Prod.fst)).getD 2 0 = 1 ∧
    (flattenEdges [((5 : Int), (6 : Int)), (7, 8)]).getD 1 0 = 6 ∧
    (flattenEdges [((5 : Int), (6 : Int)), (7, 8)]).getD 2 0 = 7 ∧
    (6 : Int) ≠ 7 := by
  decide

/-- Witness for C4: the greedy-first rule instantiated at the
start of the concrete chunks of the scenario. -/
theorem matchChunk_greedy_witness :
    matchToken c4scnk.toks c4pcnk.toks 0 0 Mode.INITIAL =
      (match matchToken c4scnk.toks c4pcnk.toks 1 0 Mode.RECORDING with
       | some res => some (dictPrepend res (c4pcnk.toks.getD 0 dtok).tid (c4scnk.toks.getD 0 dtok))
       | none =>
         match matchToken c4scnk.toks c4pcnk.toks 1 1 Mode.RECORDING with
         | some res => some (dictPrepend res (c4pcnk.toks.getD 0 dtok).tid (c4scnk.toks.getD 0 dtok))
         | none => none) :=
  matchChunk_greedy.2 c4scnk.toks c4pcnk.toks 0 0 Mode.INITIAL
    (by decide) (by decide) (by decide) (by decide)
